import Mathlib

/-!
Shallow embedding of the URL-shortener core of this repository
(`app/url_shortener.py`, persistent entities from `app/models.py`).

Modelling conventions:
* The Prisma store is a `Store` value: lists of url records, user records and
  user-url association records, plus a counter supplying fresh opaque ids.
  Each Prisma round-trip (`find_unique`, `create`, `update`) is one atomic
  step on the `Store`; `create` enforces the unique indexes on
  `originalUrl` and `shortCode` (models.py declares both columns unique)
  and signals a violation with `Err.conflict`.
* `random.choices` has no counterpart in a pure embedding: the stream of
  candidate codes produced by `generate_short_code` is passed in as an
  oracle `cands : Nat → String` (attempt number ↦ generated code).
* The outbound HTTP fetch of `fetch_page_title` is abstracted by a
  `FetchOutcome` oracle describing what the network / parser did; the
  function body downstream of the I/O is embedded faithfully.
* Python exceptions are `Except Err`; timestamps are omitted (no claim
  mentions them).
-/

namespace S8l

/-- ASCII approximation of the whitespace set stripped by Python `str.strip()`
and matched by the regex class in `re.sub` of `fetch_page_title`. -/
def isPyWs (c : Char) : Bool :=
  c == ' ' || c == '\t' || c == '\n' || c == '\r' || c == '\x0b' || c == '\x0c'

/-- Python `str.strip()` on the character list: drop whitespace from both ends. -/
def pyStripList (l : List Char) : List Char :=
  ((l.dropWhile isPyWs).reverse.dropWhile isPyWs).reverse

/-- Python `str.strip()` (line 21 of url_shortener.py). -/
def pyStrip (s : String) : String := ⟨pyStripList s.data⟩

/- ### Model of `urllib.parse.urlparse` (the parts validate_url consults) -/

/-- The components of `urlparse` that the repository reads. -/
structure ParseResult where
  scheme : String
  netloc : String
  rest : String
deriving Repr, DecidableEq

/-- Characters allowed in a URL scheme by `urllib.parse` after the leading letter. -/
def schemeChar (c : Char) : Bool := c.isAlpha || c.isDigit || c == '+' || c == '-' || c == '.'

/-- `urllib.parse` scheme splitting: if the text before the first colon is a
well-formed scheme (leading ASCII letter, then scheme characters), the scheme
is that text lowercased and the remainder follows the colon. -/
def splitScheme (cs : List Char) : List Char × List Char :=
  match cs.findIdx? (fun c => c == ':') with
  | some i =>
    if decide (0 < i) && (cs.headD ' ').isAlpha && (cs.take i).all schemeChar then
      ((cs.take i).map Char.toLower, cs.drop (i + 1))
    else ([], cs)
  | none => ([], cs)

/-- `urllib.parse` netloc splitting: after `//`, the netloc extends to the next
`/`, `?` or `#`. -/
def splitNetloc (cs : List Char) : List Char × List Char :=
  match cs with
  | '/' :: '/' :: rest =>
    (rest.takeWhile (fun c => !(c == '/' || c == '?' || c == '#')),
     rest.dropWhile (fun c => !(c == '/' || c == '?' || c == '#')))
  | _ => ([], cs)

/-- Model of `urllib.parse.urlparse`: removes the unsafe bytes tab/CR/LF,
splits scheme and netloc, and raises (returns `Except.error`) on an
unbalanced-bracket netloc, as the stdlib does for invalid IPv6 authorities. -/
def urlparseModel (s : String) : Except Unit ParseResult :=
  let cs := s.data.filter (fun c => !(c == '\t' || c == '\r' || c == '\n'))
  let p1 := splitScheme cs
  let p2 := splitNetloc p1.2
  if (p2.1.contains '[' && !(p2.1.contains ']')) || (p2.1.contains ']' && !(p2.1.contains '[')) then
    .error ()
  else
    .ok { scheme := ⟨p1.1⟩, netloc := ⟨p2.1⟩, rest := ⟨p2.2⟩ }

/-- The suffix of the netloc after its last `@` (`rpartition` in
`urllib.parse`); the whole netloc when no `@` occurs. -/
def afterLastAt (cs : List Char) : List Char :=
  (cs.reverse.takeWhile (fun c => !(c == '@'))).reverse

/-- Model of the `hostname` property of a parse result: strip userinfo, take a
bracketed IPv6 literal or else the part before the port colon, lowercase,
and yield `none` for an empty host. -/
def hostnameOf (netloc : String) : Option String :=
  let hi := afterLastAt netloc.data
  let host :=
    if hi.contains '[' then
      ((hi.dropWhile (fun c => !(c == '['))).drop 1).takeWhile (fun c => !(c == ']'))
    else hi.takeWhile (fun c => !(c == ':'))
  if host.isEmpty then none else some ⟨host.map Char.toLower⟩

/- ### Errors raised by the shortener -/

/-- The distinct `ValueError`s of url_shortener.py plus the store-level
unique-constraint violation Prisma raises on a losing concurrent insert. -/
inductive Err where
  | invalidURL
  | selfReferential
  | codeSpaceExhausted
  | conflict
deriving Repr, DecidableEq

/-- The user-displayable message attached to each raised error in the source. -/
def errMessage : Err → String
  | .invalidURL => "網址格式錯誤，請檢查"
  | .selfReferential => "不能縮短本服務的網址"
  | .codeSpaceExhausted => "生成短網址失敗，請重試"
  | .conflict => "UniqueViolationError"

/-- The tuple test `url.startswith(('http://', 'https://'))` (line 24). -/
def startsHttp (s : String) : Bool :=
  ("http://").data.isPrefixOf s.data || ("https://").data.isPrefixOf s.data

/-- Lines 23-25: prepend `https://` when no scheme marker is present. -/
def ensureScheme (url1 : String) : String :=
  if startsHttp url1 then url1 else "https://" ++ url1

/-- `validate_url` (lines 19-34): strip, prepend `https://` when no scheme
marker is present, parse, and reject when the parse raises or the result
lacks a scheme or lacks a netloc. The `ValueError` raised inside the `try`
is caught by the `except` and re-raised with the identical message, so the
observable behaviour is a single `invalidURL` failure. -/
def validate_url (url : String) : Except Err String :=
  match urlparseModel (ensureScheme (pyStrip url)) with
  | .error _ => .error .invalidURL
  | .ok result =>
    if result.scheme == "" || result.netloc == "" then .error .invalidURL
    else .ok (ensureScheme (pyStrip url))

/- ### Metadata fetch (`fetch_page_title`, lines 36-73) -/

/-- The sentinel title returned on every failure mode (the string literally
means "unable to fetch title"). -/
def sentinel_title : String := "無法獲取標題"

/-- Outcome of parsing the (64 KB-truncated) body with BeautifulSoup:
either a parse with the text of the first `title` element (if any),
or a parser exception. -/
inductive HtmlContent where
  | parsed (titleText : Option String)
  | parseError
deriving Repr, DecidableEq

/-- What the single outbound HTTP fetch did, as observed by the code. -/
inductive FetchOutcome where
  | timeout
  | networkError
  | response (status : Nat) (body : HtmlContent)
deriving Repr, DecidableEq

/-- Worker for whitespace collapsing, carrying whether the previous character
was whitespace (in which case further whitespace is dropped). -/
def collapseWsGo : Bool → List Char → List Char
  | _, [] => []
  | prevWs, c :: rest =>
    if isPyWs c then
      if prevWs then collapseWsGo true rest
      else ' ' :: collapseWsGo true rest
    else c :: collapseWsGo false rest

/-- `re.sub(r'\s+', ' ', title)`: collapse each whitespace run to one space. -/
def collapseWsList (l : List Char) : List Char := collapseWsGo false l

/-- `fetch_page_title` (lines 36-73): non-200 status, timeout, parser
exception, network exception and missing/empty title all yield the sentinel;
a present title is stripped, whitespace-collapsed and truncated to 200
characters. -/
def fetch_page_title (outcome : FetchOutcome) : String :=
  match outcome with
  | .timeout => sentinel_title
  | .networkError => sentinel_title
  | .response status body =>
    if status == 200 then
      match body with
      | .parseError => sentinel_title
      | .parsed none => sentinel_title
      | .parsed (some t) =>
        if t == "" then sentinel_title
        else ⟨(collapseWsList (pyStripList t.data)).take 200⟩
    else sentinel_title

/- ### Persistent entities and the Prisma store -/

/-- A row of the `urls` table (models.py lines 8-23): `original_url` and
`short_code` are unique columns, `click_count` defaults to 0. -/
structure UrlRec where
  id : Nat
  originalUrl : String
  shortCode : String
  title : Option String
  clickCount : Nat
deriving Repr, DecidableEq

/-- A user row; only the fields url_shortener.py touches. -/
structure UserRec where
  id : Nat
  email : String
  password : String
  name : String
  emailVerified : Bool
deriving Repr, DecidableEq

/-- A user-url association row (the multi-tenant ownership relation). -/
structure UserUrlRec where
  userId : Nat
  urlId : Nat
  customDomainId : Option Nat
deriving Repr, DecidableEq

/-- The backing store: the three tables plus a fresh-id supply. -/
structure Store where
  users : List UserRec
  urls : List UrlRec
  userUrls : List UserUrlRec
  nextId : Nat
deriving Repr, DecidableEq

/-- `db.url.find_unique(where={"originalUrl": u})`. -/
def findByOriginalUrl (urls : List UrlRec) (u : String) : Option UrlRec :=
  urls.find? (fun r => r.originalUrl == u)

/-- `db.url.find_unique(where={"shortCode": c})`. -/
def findByShortCode (urls : List UrlRec) (c : String) : Option UrlRec :=
  urls.find? (fun r => r.shortCode == c)

/-- `db.user.find_unique(where={"email": e})`. -/
def findUserByEmail (users : List UserRec) (e : String) : Option UserRec :=
  users.find? (fun u => u.email == e)

/-- `db.userurl.find_first` on userId, urlId and `customDomainId: None`. -/
def findAssoc (assocs : List UserUrlRec) (uid uru : Nat) : Option UserUrlRec :=
  assocs.find? (fun a => a.userId == uid && a.urlId == uru && a.customDomainId == none)

/-- The attribution account used for every LINE-bot-created link. -/
def linebot_email : String := "linebot@s8l.xyz"

/-- `get_or_create_linebot_user` (lines 75-95): look the system user up by
email, creating it on first use. Never touches the `urls` table. -/
def get_or_create_linebot_user (db : Store) : Store × UserRec :=
  match findUserByEmail db.users linebot_email with
  | some u => (db, u)
  | none =>
    let u : UserRec :=
      { id := db.nextId, email := linebot_email, password := "linebot_system_user",
        name := "LINE Bot System", emailVerified := true }
    ({ db with users := db.users ++ [u], nextId := db.nextId + 1 }, u)

/-- The 64-character URL-safe alphabet of `generate_short_code` (line 13). -/
def URL_SAFE_CHARS : String :=
  "ABCDEFGHIJKLMNOPQRSTUVWXYZabcdefghijklmnopqrstuvwxyz0123456789-_"

/-- `db.url.create` (lines 163-169): Prisma's atomic insert. The two unique
indexes of the `urls` table make a concurrent duplicate insert raise a
unique-constraint violation, modelled as `Err.conflict`; url_shortener.py
contains no handler for it. A fresh record starts with `clickCount = 0`
(the column default). -/
def urlCreate (db : Store) (origUrl code titl : String) : Except Err (Store × UrlRec) :=
  if (findByOriginalUrl db.urls origUrl).isSome || (findByShortCode db.urls code).isSome then
    .error .conflict
  else
    .ok ({ db with
             urls := db.urls ++ [{ id := db.nextId, originalUrl := origUrl, shortCode := code,
                                   title := some titl, clickCount := 0 }],
             nextId := db.nextId + 1 },
         { id := db.nextId, originalUrl := origUrl, shortCode := code,
           title := some titl, clickCount := 0 })

/-- `max_attempts = 10` (line 144). -/
def max_attempts : Nat := 10

/-- The collision-detection loop of lines 147-157, with the candidate stream
as oracle: probe `cands attempt`; a fresh code wins, a collision on the final
attempt raises the exhaustion error, otherwise try the next attempt. The
final `else` arm (loop index past the bound) is unreachable from attempt 0
because the last in-bounds collision already raises; it is given the same
error so the function is total. -/
def genLoopF (urls : List UrlRec) (cands : Nat → String) : Nat → Nat → Except Err String
  | 0, _ => .error .codeSpaceExhausted
  | fuel + 1, attempt =>
    if attempt < max_attempts then
      match findByShortCode urls (cands attempt) with
      | none => .ok (cands attempt)
      | some _ =>
        if attempt = max_attempts - 1 then .error .codeSpaceExhausted
        else genLoopF urls cands fuel (attempt + 1)
    else .error .codeSpaceExhausted

/-- The loop entered at `attempt`: the remaining-attempt count is the
structural fuel, so the function computes by reduction; `genLoop_unfold`
below recovers the loop-shaped unfolding. -/
def genLoop (urls : List UrlRec) (cands : Nat → String) (attempt : Nat) : Except Err String :=
  genLoopF urls cands (max_attempts - attempt) attempt

/-- Lines 103-109 as written would reject the service's own hosts — but the
`raise ValueError` sits inside the very `try` whose handler is
`except Exception: pass`, so the rejection is swallowed and the block is a
no-op. This definition is the check the `raise` expresses
(`parsed.hostname in ['s8l.xyz', 'www.s8l.xyz', 'localhost', '127.0.0.1']`);
`create_short_url` discards its result, exactly as the source does. -/
def selfRefAttempt (validatedUrl : String) : Except Err Unit :=
  match urlparseModel validatedUrl with
  | .error _ => .ok ()
  | .ok parsed =>
    match hostnameOf parsed.netloc with
    | some h =>
      if ["s8l.xyz", "www.s8l.xyz", "localhost", "127.0.0.1"].contains h then
        .error .selfReferential
      else .ok ()
    | none => .ok ()

/-- The result dictionary returned by `create_short_url`. -/
structure ShortenResult where
  shortCode : String
  originalUrl : String
  title : Option String
  shortUrl : String
deriving Repr, DecidableEq

/-- Lines 117-141: the dedup hit path. Ensures the user-url association
exists and returns the existing record's fields; the `urls` table is not
touched. -/
def existingPath (db : Store) (user : UserRec) (existing : UrlRec) :
    Store × ShortenResult :=
  (match findAssoc db.userUrls user.id existing.id with
   | some _ => db
   | none =>
     { db with userUrls :=
         db.userUrls ++ [{ userId := user.id, urlId := existing.id, customDomainId := none }] },
   { shortCode := existing.shortCode, originalUrl := existing.originalUrl,
     title := existing.title, shortUrl := "https://s8l.xyz/" ++ existing.shortCode })

/-- Lines 143-184: everything `create_short_url` runs once the dedup lookup
has come back empty — the code-generation loop, the title fetch, the insert
and the association insert. Splitting the function here lets the
concurrency model below interleave a second caller between the dedup read
and the insert. -/
def afterDedupMiss (db : Store) (user : UserRec) (validated : String)
    (cands : Nat → String) (fetch : FetchOutcome) : Except Err (Store × ShortenResult) :=
  match genLoop db.urls cands 0 with
  | .error e => .error e
  | .ok code =>
    match urlCreate db validated code (fetch_page_title fetch) with
    | .error e => .error e
    | .ok (db2, newUrl) =>
      .ok ({ db2 with userUrls :=
               db2.userUrls ++ [{ userId := user.id, urlId := newUrl.id, customDomainId := none }] },
           { shortCode := newUrl.shortCode, originalUrl := newUrl.originalUrl,
             title := newUrl.title, shortUrl := "https://s8l.xyz/" ++ newUrl.shortCode })

/-- `create_short_url` (lines 97-184): validate, run (and discard, as the
swallowed `except` does) the own-domain check, ensure the attribution user,
dedup by destination, and otherwise generate a code, fetch the title and
insert. -/
def create_short_url (db : Store) (original_url : String)
    (cands : Nat → String) (fetch : FetchOutcome) : Except Err (Store × ShortenResult) :=
  match validate_url original_url with
  | .error e => .error e
  | .ok validated =>
    match findByOriginalUrl (get_or_create_linebot_user db).1.urls validated with
    | some existing =>
      .ok (existingPath (get_or_create_linebot_user db).1 (get_or_create_linebot_user db).2 existing)
    | none =>
      afterDedupMiss (get_or_create_linebot_user db).1 (get_or_create_linebot_user db).2
        validated cands fetch

/-- `get_original_url` (lines 186-198): look the code up; on a hit,
atomically increment that record's click counter (`clickCount: increment 1`
keyed by primary id) and return the destination read before the update; on a
miss return nothing and leave the store untouched. -/
def get_original_url (db : Store) (short_code : String) : Store × Option String :=
  match findByShortCode db.urls short_code with
  | some r =>
    ({ db with urls := db.urls.map (fun x =>
        if x.id = r.id then { x with clickCount := x.clickCount + 1 } else x) },
     some r.originalUrl)
  | none => (db, none)

/- ### Two concurrent Shorten callers

Each `Shorten` invocation performs its store round-trips one at a time; the
store serializes them. The model below splits one invocation of
`create_short_url` at the boundary the dedup race cares about: the
dedup lookup (line 115) is one atomic step, and the remainder (lines
143-184, `afterDedupMiss`, or the hit path of lines 117-141) is the other.
An interleaving of two callers is a schedule saying whose step runs next.
Validation is pure, and with the attribution user already present the
user lookup is a pure read, so both callers are started at the dedup step. -/

instance : DecidableEq (Except Err ShortenResult) := fun a b =>
  match a, b with
  | .ok x, .ok y => if h : x = y then .isTrue (by rw [h]) else .isFalse (by simp [h])
  | .error x, .error y => if h : x = y then .isTrue (by rw [h]) else .isFalse (by simp [h])
  | .ok _, .error _ => .isFalse (by simp)
  | .error _, .ok _ => .isFalse (by simp)

/-- Where a caller stands: about to run the dedup lookup, holding its result,
or finished with the call's outcome. -/
inductive Phase where
  | atDedup
  | atRest (found : Option UrlRec)
  | finished (outcome : Except Err ShortenResult)
deriving Repr, DecidableEq

/-- One caller: its validated destination, its resolved attribution user, its
candidate-code oracle, its fetch outcome, and its current phase. -/
structure CallerCtx where
  validated : String
  user : UserRec
  cands : Nat → String
  fetch : FetchOutcome
  phase : Phase

/-- Run one atomic step of a caller against the shared store. -/
def stepCaller (db : Store) (c : CallerCtx) : Store × CallerCtx :=
  match c.phase with
  | .atDedup => (db, { c with phase := .atRest (findByOriginalUrl db.urls c.validated) })
  | .atRest found =>
    match found with
    | some existing =>
      ((existingPath db c.user existing).1,
       { c with phase := .finished (.ok (existingPath db c.user existing).2) })
    | none =>
      match afterDedupMiss db c.user c.validated c.cands c.fetch with
      | .error e => (db, { c with phase := .finished (.error e) })
      | .ok (db2, r) => (db2, { c with phase := .finished (.ok r) })
  | .finished _ => (db, c)

/-- Interleave two callers A and B under a schedule (`true` = A steps next). -/
def runTwo (db : Store) (a b : CallerCtx) : List Bool → Store × CallerCtx × CallerCtx
  | [] => (db, a, b)
  | true :: sched =>
    let s := stepCaller db a
    runTwo s.1 s.2 b sched
  | false :: sched =>
    let s := stepCaller db b
    runTwo s.1 a s.2 sched

/-- The six interleavings of two two-step callers. -/
def validSchedules : List (List Bool) :=
  [[true, true, false, false], [true, false, true, false], [true, false, false, true],
   [false, true, true, false], [false, true, false, true], [false, false, true, true]]

/- ### Concrete stores and callers used by witnesses and counterexamples -/

/-- A store with no rows at all. -/
def emptyStore : Store := { users := [], urls := [], userUrls := [], nextId := 0 }

/-- The attribution user as a concrete row. -/
def linebotUserRec : UserRec :=
  { id := 0, email := linebot_email, password := "linebot_system_user",
    name := "LINE Bot System", emailVerified := true }

/-- A store holding only the attribution user, the starting point of the
two-caller race. -/
def raceStore : Store := { users := [linebotUserRec], urls := [], userUrls := [], nextId := 1 }

/-- Race caller A: wants `https://example.org`, draws code `AAAAAA`. -/
def callerA : CallerCtx :=
  { validated := "https://example.org", user := linebotUserRec,
    cands := fun _ => "AAAAAA", fetch := .timeout, phase := .atDedup }

/-- Race caller B: same destination, draws code `BBBBBB`. -/
def callerB : CallerCtx :=
  { validated := "https://example.org", user := linebotUserRec,
    cands := fun _ => "BBBBBB", fetch := .timeout, phase := .atDedup }

/-- A constant candidate-code oracle used by concrete witnesses. -/
def candsA : Nat → String := fun _ => "abc123"

/-- The url record created by the first concrete Shorten call of the
witnesses below. -/
def exampleUrlRec : UrlRec :=
  { id := 1, originalUrl := "https://example.com", shortCode := "abc123",
    title := some sentinel_title, clickCount := 0 }

/-- The store after `create_short_url emptyStore "https://example.com"`. -/
def store1 : Store :=
  { users := [linebotUserRec], urls := [exampleUrlRec],
    userUrls := [{ userId := 0, urlId := 1, customDomainId := none }], nextId := 2 }

/-- The result of that first concrete Shorten call. -/
def res1 : ShortenResult :=
  { shortCode := "abc123", originalUrl := "https://example.com",
    title := some sentinel_title, shortUrl := "https://s8l.xyz/abc123" }

/- ### Lemmas: `dropWhile` and Python `strip` -/

theorem dropWhile_self_dropWhile (q : Char → Bool) (l : List Char) :
    (l.dropWhile q).dropWhile q = l.dropWhile q := by
  induction l with
  | nil => rfl
  | cons c rest ih =>
    by_cases h : q c
    · simp [List.dropWhile_cons, h, ih]
    · simp [List.dropWhile_cons, h]

theorem dropWhile_head_false (q : Char → Bool) (l : List Char) (c : Char) (rest : List Char)
    (h : l.dropWhile q = c :: rest) : q c = false := by
  induction l with
  | nil => simp [List.dropWhile] at h
  | cons a tl ih =>
    rw [List.dropWhile_cons] at h
    by_cases ha : q a
    · simp [ha] at h; exact ih h
    · simp [ha] at h
      obtain ⟨h1, _⟩ := h
      subst h1
      simpa using ha

/-- The back end of a stripped list is whitespace-free. -/
theorem pyStripList_reverse_fixed (l : List Char) :
    (pyStripList l).reverse.dropWhile isPyWs = (pyStripList l).reverse := by
  unfold pyStripList
  rw [List.reverse_reverse]
  exact dropWhile_self_dropWhile isPyWs _

theorem dropWhile_cons_of_false (q : Char → Bool) (c : Char) (l : List Char)
    (h : q c = false) : List.dropWhile q (c :: l) = c :: l := by
  simp [List.dropWhile_cons, h]

/-- A list whose `dropWhile` is itself and which is nonempty has a head
failing the predicate. -/
theorem head_false_of_dropWhile_fixed (q : Char → Bool) (c : Char) (rest : List Char)
    (h : List.dropWhile q (c :: rest) = c :: rest) : q c = false := by
  by_cases hq : q c
  · exfalso
    rw [List.dropWhile_cons, if_pos hq] at h
    have hlen := congrArg List.length h
    have hle : (rest.dropWhile q).length ≤ rest.length :=
      (List.dropWhile_sublist q).length_le
    simp at hlen
    omega
  · simpa using hq

/-- The front end of a stripped list is whitespace-free. -/
theorem pyStripList_front_fixed (l : List Char) :
    (pyStripList l).dropWhile isPyWs = pyStripList l := by
  rcases h : pyStripList l with _ | ⟨c, rest⟩
  · rfl
  · have hpref : pyStripList l <+: l.dropWhile isPyWs := by
      have hsuf : ((l.dropWhile isPyWs).reverse.dropWhile isPyWs) <:+ (l.dropWhile isPyWs).reverse :=
        List.dropWhile_suffix isPyWs
      have hp : ((l.dropWhile isPyWs).reverse.dropWhile isPyWs).reverse <+:
          ((l.dropWhile isPyWs).reverse).reverse := List.reverse_prefix.mpr hsuf
      rw [List.reverse_reverse] at hp
      exact hp
    rw [h] at hpref
    obtain ⟨t, ht⟩ := hpref
    have hc : isPyWs c = false :=
      dropWhile_head_false isPyWs l c (rest ++ t) (by simpa using ht.symm)
    exact dropWhile_cons_of_false isPyWs c rest hc

/-- Stripping is idempotent. -/
theorem pyStripList_idem (l : List Char) : pyStripList (pyStripList l) = pyStripList l := by
  show (((pyStripList l).dropWhile isPyWs).reverse.dropWhile isPyWs).reverse = pyStripList l
  rw [pyStripList_front_fixed, pyStripList_reverse_fixed, List.reverse_reverse]

/-- Prepending `https://` to a stripped string yields a stripped string. -/
theorem pyStripList_https (l : List Char) :
    pyStripList (("https://").data ++ pyStripList l) = ("https://").data ++ pyStripList l := by
  have hd : ("https://").data = 'h' :: 't' :: 't' :: 'p' :: 's' :: ':' :: '/' :: '/' :: [] := rfl
  have hfront : (("https://").data ++ pyStripList l).dropWhile isPyWs =
      ("https://").data ++ pyStripList l := by
    rw [hd]
    simp only [List.cons_append, List.nil_append]
    exact dropWhile_cons_of_false isPyWs 'h' _ (by decide)
  have hback : ((("https://").data ++ pyStripList l).reverse).dropWhile isPyWs =
      (("https://").data ++ pyStripList l).reverse := by
    rw [List.reverse_append]
    rcases h : (pyStripList l).reverse with _ | ⟨c, rest⟩
    · rw [hd]
      simp only [List.nil_append]
      decide
    · have hc : isPyWs c = false := by
        have hfix := pyStripList_reverse_fixed l
        rw [h] at hfix
        exact head_false_of_dropWhile_fixed isPyWs c rest hfix
      simp only [List.cons_append]
      exact dropWhile_cons_of_false isPyWs c _ hc
  show ((( ("https://").data ++ pyStripList l).dropWhile isPyWs).reverse.dropWhile isPyWs).reverse =
      ("https://").data ++ pyStripList l
  rw [hfront, hback, List.reverse_reverse]

/-- The output of the strip-and-prepend normalization is already stripped. -/
theorem pyStrip_ensureScheme (s : String) :
    pyStrip (ensureScheme (pyStrip s)) = ensureScheme (pyStrip s) := by
  unfold ensureScheme
  by_cases hs : startsHttp (pyStrip s) = true
  · rw [if_pos hs]
    show (⟨pyStripList (pyStrip s).data⟩ : String) = pyStrip s
    have hdata : (pyStrip s).data = pyStripList s.data := rfl
    rw [hdata, pyStripList_idem]
    rfl
  · rw [if_neg hs]
    show (⟨pyStripList ("https://" ++ pyStrip s).data⟩ : String) = "https://" ++ pyStrip s
    have hdata : ("https://" ++ pyStrip s).data = ("https://").data ++ pyStripList s.data :=
      String.data_append ..
    rw [hdata, pyStripList_https]
    exact congrArg String.mk hdata.symm

/-- The output of the strip-and-prepend normalization carries a scheme marker. -/
theorem startsHttp_ensureScheme (s : String) :
    startsHttp (ensureScheme (pyStrip s)) = true := by
  unfold ensureScheme
  by_cases hs : startsHttp (pyStrip s) = true
  · rw [if_pos hs]; exact hs
  · rw [if_neg hs]
    unfold startsHttp
    have hdata : ("https://" ++ pyStrip s).data = ("https://").data ++ (pyStrip s).data :=
      String.data_append ..
    rw [hdata]
    have : ("https://").data.isPrefixOf (("https://").data ++ (pyStrip s).data) = true := by
      rw [List.isPrefixOf_iff_prefix]
      exact List.prefix_append ..
    simp [this]

/-- A string that already carries a scheme marker is left unchanged. -/
theorem ensureScheme_of_startsHttp (t : String) (h : startsHttp t = true) :
    ensureScheme t = t := by
  unfold ensureScheme
  rw [if_pos h]

/-- C10: validate_url is idempotent on its accepted inputs — a successful
output re-validates to itself, because every success is a stripped string
carrying an `http://` or `https://` marker. -/
theorem C10_validate_url_idempotent (s v : String) (h : validate_url s = .ok v) :
    validate_url v = .ok v := by
  unfold validate_url at h ⊢
  rcases hp : urlparseModel (ensureScheme (pyStrip s)) with e | p
  · rw [hp] at h
    exact absurd h (by simp)
  · rw [hp] at h
    by_cases hc : (p.scheme == "" || p.netloc == "") = true
    · simp only [hc, if_true] at h
      exact absurd h (by simp)
    · simp only [hc, if_false, Bool.false_eq_true] at h
      have hv : v = ensureScheme (pyStrip s) := by
        simp only [Except.ok.injEq] at h
        exact h.symm
      subst hv
      have hfix : ensureScheme (pyStrip (ensureScheme (pyStrip s))) = ensureScheme (pyStrip s) := by
        rw [pyStrip_ensureScheme, ensureScheme_of_startsHttp _ (startsHttp_ensureScheme s)]
      rw [hfix, hp]
      simp [hc]

/-- C10 witness: a concrete accepted input re-validates to its own output. -/
theorem C10_witness : validate_url ("https://example.com") = .ok ("https://example.com") :=
  C10_validate_url_idempotent ("example.com") ("https://example.com") rfl

/-- C8 counterexample: on input `https://` validation fails although the
parsed result does have a scheme (`https`), so "fails exactly when the
parsed result lacks both a scheme and a host" is false — the code fails as
soon as either is missing. -/
theorem C8_counterexample :
    validate_url ("https://") = .error .invalidURL ∧
    urlparseModel ("https://") = .ok { scheme := "https", netloc := "", rest := "" } :=
  ⟨rfl, rfl⟩

/-- C8 (amended): validate_url trims surrounding whitespace and prepends
`https://` when no scheme marker is present (every success returns exactly
that normalized string), and it fails with InvalidURL exactly when parsing
the normalized string raises or the parsed result lacks a scheme or lacks a
host. -/
theorem C8_validate_url_normalization (s : String) :
    (validate_url s = .ok (ensureScheme (pyStrip s)) ∨
     validate_url s = .error .invalidURL) ∧
    (validate_url s = .error .invalidURL ↔
      ∀ p, urlparseModel (ensureScheme (pyStrip s)) = .ok p →
        (p.scheme = "" ∨ p.netloc = "")) := by
  have hval : validate_url s =
      match urlparseModel (ensureScheme (pyStrip s)) with
      | .error _ => .error .invalidURL
      | .ok result =>
        if result.scheme == "" || result.netloc == "" then .error .invalidURL
        else .ok (ensureScheme (pyStrip s)) := rfl
  rcases hp : urlparseModel (ensureScheme (pyStrip s)) with e | p
  · rw [hp] at hval
    refine ⟨Or.inr hval, ?_⟩
    constructor
    · intro _ q hq
      cases hq
    · intro _
      exact hval
  · rw [hp] at hval
    by_cases hc : (p.scheme == "" || p.netloc == "") = true
    · simp only [hc, if_true] at hval
      refine ⟨Or.inr hval, ?_⟩
      constructor
      · intro _ q hq
        have hq2 : p = q := by simpa using hq
        subst hq2
        rcases Bool.or_eq_true_iff.mp hc with h1 | h1
        · exact Or.inl (by simpa using h1)
        · exact Or.inr (by simpa using h1)
      · intro _
        exact hval
    · simp only [hc, if_false, Bool.false_eq_true] at hval
      refine ⟨Or.inl hval, ?_⟩
      constructor
      · intro habs
        rw [hval] at habs
        cases habs
      · intro hall
        exfalso
        rcases hall p rfl with h1 | h1
        · exact hc (by simp [h1])
        · exact hc (by simp [h1])

/- ### Lemmas: the code-generation loop -/

/-- Loop-shaped unfolding of `genLoop`, matching lines 147-157 one iteration
at a time. -/
theorem genLoop_unfold (urls : List UrlRec) (cands : Nat → String) (attempt : Nat) :
    genLoop urls cands attempt =
      (if attempt < max_attempts then
        match findByShortCode urls (cands attempt) with
        | none => .ok (cands attempt)
        | some _ =>
          if attempt = max_attempts - 1 then .error .codeSpaceExhausted
          else genLoop urls cands (attempt + 1)
      else .error .codeSpaceExhausted) := by
  unfold genLoop
  rcases hfa : max_attempts - attempt with _ | fuel
  · have hlt : ¬ attempt < max_attempts := by omega
    rw [if_neg hlt]
    rfl
  · have hlt : attempt < max_attempts := by omega
    have hfa2 : max_attempts - (attempt + 1) = fuel := by omega
    rw [hfa2]
    rfl

theorem genLoop_all_collide_aux (urls : List UrlRec) (cands : Nat → String) :
    ∀ n a, max_attempts - a = n →
      (∀ i, a ≤ i → i < max_attempts → (findByShortCode urls (cands i)).isSome) →
      genLoop urls cands a = .error .codeSpaceExhausted := by
  intro n
  induction n with
  | zero =>
    intro a hfuel _
    rw [genLoop_unfold, if_neg (by omega)]
  | succ n ih =>
    intro a hfuel hall
    have ha : a < max_attempts := by omega
    rw [genLoop_unfold, if_pos ha]
    have hsome := hall a (Nat.le_refl a) ha
    rcases hfind : findByShortCode urls (cands a) with _ | r
    · rw [hfind] at hsome; simp at hsome
    · by_cases hlast : a = max_attempts - 1
      · rw [if_pos hlast]
      · rw [if_neg hlast]
        exact ih (a + 1) (by omega) (fun i h1 h2 => hall i (by omega) h2)

theorem genLoop_first_fresh_aux (urls : List UrlRec) (cands : Nat → String) (j : Nat)
    (hj : j < max_attempts)
    (hfresh : findByShortCode urls (cands j) = none) :
    ∀ n a, max_attempts - a = n → a ≤ j →
      (∀ i, a ≤ i → i < j → (findByShortCode urls (cands i)).isSome) →
      genLoop urls cands a = .ok (cands j) := by
  intro n
  induction n with
  | zero =>
    intro a hfuel haj _
    omega
  | succ n ih =>
    intro a hfuel haj hcoll
    have ha : a < max_attempts := by omega
    rw [genLoop_unfold, if_pos ha]
    by_cases haeq : a = j
    · subst haeq
      rw [hfresh]
    · have hsome := hcoll a (Nat.le_refl a) (by omega)
      rcases hfind : findByShortCode urls (cands a) with _ | r
      · rw [hfind] at hsome; simp at hsome
      · have hlast : ¬ (a = max_attempts - 1) := by unfold max_attempts at *; omega
        rw [if_neg hlast]
        exact ih (a + 1) (by omega) (by omega) (fun i h1 h2 => hcoll i (by omega) h2)

theorem genLoop_congr_aux (urls : List UrlRec) (cands cands2 : Nat → String)
    (hagree : ∀ i, i < max_attempts → cands i = cands2 i) :
    ∀ n a, max_attempts - a = n →
      genLoop urls cands a = genLoop urls cands2 a := by
  intro n
  induction n with
  | zero =>
    intro a hfuel
    have ha : ¬ a < max_attempts := by omega
    conv_lhs => rw [genLoop_unfold]
    conv_rhs => rw [genLoop_unfold]
    rw [if_neg ha, if_neg ha]
  | succ n ih =>
    intro a hfuel
    have ha : a < max_attempts := by omega
    conv_lhs => rw [genLoop_unfold]
    conv_rhs => rw [genLoop_unfold]
    rw [if_pos ha, if_pos ha, hagree a ha]
    rcases hfind : findByShortCode urls (cands2 a) with _ | r
    · rfl
    · show (if a = max_attempts - 1 then Except.error Err.codeSpaceExhausted
          else genLoop urls cands (a + 1)) =
        (if a = max_attempts - 1 then Except.error Err.codeSpaceExhausted
          else genLoop urls cands2 (a + 1))
      by_cases hlast : a = max_attempts - 1
      · rw [if_pos hlast, if_pos hlast]
      · rw [if_neg hlast, if_neg hlast]
        exact ih (a + 1) (by omega)

theorem genLoop_ok_fresh_aux (urls : List UrlRec) (cands : Nat → String) :
    ∀ n a c, max_attempts - a = n →
      genLoop urls cands a = .ok c → findByShortCode urls c = none := by
  intro n
  induction n with
  | zero =>
    intro a c hfuel h
    rw [genLoop_unfold, if_neg (by omega)] at h
    cases h
  | succ n ih =>
    intro a c hfuel h
    have ha : a < max_attempts := by omega
    rw [genLoop_unfold, if_pos ha] at h
    rcases hfind : findByShortCode urls (cands a) with _ | r
    · rw [hfind] at h
      have hc : c = cands a := by simpa using h.symm
      rw [hc, hfind]
    · rw [hfind] at h
      by_cases hlast : a = max_attempts - 1
      · rw [if_pos hlast] at h; cases h
      · rw [if_neg hlast] at h
        exact ih (a + 1) c (by omega) h

/- ### Lemmas: the store operations -/

theorem get_or_create_urls (db : Store) :
    (get_or_create_linebot_user db).1.urls = db.urls := by
  unfold get_or_create_linebot_user
  cases h : findUserByEmail db.users linebot_email <;> simp [h]

theorem existingPath_fst_urls (db : Store) (user : UserRec) (e : UrlRec) :
    (existingPath db user e).1.urls = db.urls := by
  unfold existingPath
  cases h : findAssoc db.userUrls user.id e.id <;> simp [h]

theorem existingPath_snd (db : Store) (user : UserRec) (e : UrlRec) :
    (existingPath db user e).2 =
      { shortCode := e.shortCode, originalUrl := e.originalUrl,
        title := e.title, shortUrl := "https://s8l.xyz/" ++ e.shortCode } := rfl

/-- Any successful `afterDedupMiss` appended exactly one fresh record. -/
theorem afterDedupMiss_ok_shape (db s1 : Store) (user : UserRec) (v : String)
    (cands : Nat → String) (fetch : FetchOutcome) (r : ShortenResult)
    (h : afterDedupMiss db user v cands fetch = .ok (s1, r)) :
    ∃ nr : UrlRec, s1.urls = db.urls ++ [nr] ∧ nr.originalUrl = v ∧ nr.clickCount = 0 ∧
      nr.title = some (fetch_page_title fetch) ∧
      findByShortCode db.urls nr.shortCode = none ∧
      findByOriginalUrl db.urls v = none ∧
      r = { shortCode := nr.shortCode, originalUrl := nr.originalUrl, title := nr.title,
            shortUrl := "https://s8l.xyz/" ++ nr.shortCode } := by
  unfold afterDedupMiss at h
  rcases hg : genLoop db.urls cands 0 with e | code
  · rw [hg] at h; cases h
  · simp only [hg] at h
    unfold urlCreate at h
    by_cases hguard :
        ((findByOriginalUrl db.urls v).isSome || (findByShortCode db.urls code).isSome) = true
    · simp only [hguard, if_true] at h
      cases h
    · have hmiss : findByOriginalUrl db.urls v = none := by
        rcases hx : findByOriginalUrl db.urls v with _ | w
        · rfl
        · exfalso; apply hguard; rw [hx]; rfl
      have hfresh : findByShortCode db.urls code = none := by
        rcases hx : findByShortCode db.urls code with _ | w
        · rfl
        · exfalso; apply hguard; rw [hx]; simp
      rw [Bool.not_eq_true] at hguard
      simp only [hguard, Bool.false_eq_true, if_false] at h
      obtain ⟨h1, h2⟩ := Prod.mk.inj (Except.ok.inj h)
      refine ⟨{ id := db.nextId, originalUrl := v, shortCode := code,
                title := some (fetch_page_title fetch), clickCount := 0 },
              ?_, rfl, rfl, rfl, hfresh, hmiss, h2.symm⟩
      rw [← h1]

/-- A successful generation plus empty dedup lookup makes the whole
miss path succeed with the generated code and the fetched title. -/
theorem afterDedupMiss_ok_of_gen (db : Store) (user : UserRec) (v : String)
    (cands : Nat → String) (fetch : FetchOutcome) (code : String)
    (hmiss : findByOriginalUrl db.urls v = none)
    (hgen : genLoop db.urls cands 0 = .ok code) :
    ∃ s1, afterDedupMiss db user v cands fetch =
      .ok (s1, { shortCode := code, originalUrl := v, title := some (fetch_page_title fetch),
                 shortUrl := "https://s8l.xyz/" ++ code }) := by
  have hfresh : findByShortCode db.urls code = none :=
    genLoop_ok_fresh_aux db.urls cands (max_attempts - 0) 0 code rfl hgen
  unfold afterDedupMiss
  simp only [hgen]
  unfold urlCreate
  simp only [hmiss, hfresh, Option.isSome_none, Bool.or_self, Bool.false_eq_true, if_false]
  exact ⟨_, rfl⟩

/-- A dedup hit short-circuits `create_short_url` to the existing record. -/
theorem create_on_hit (db : Store) (u v : String) (cands : Nat → String)
    (fetch : FetchOutcome) (rec0 : UrlRec)
    (hv : validate_url u = .ok v)
    (hfound : findByOriginalUrl db.urls v = some rec0) :
    ∃ s2, create_short_url db u cands fetch =
      .ok (s2, { shortCode := rec0.shortCode, originalUrl := rec0.originalUrl,
                 title := rec0.title, shortUrl := "https://s8l.xyz/" ++ rec0.shortCode }) ∧
      s2.urls = db.urls := by
  unfold create_short_url
  simp only [hv, get_or_create_urls db, hfound]
  refine ⟨(existingPath (get_or_create_linebot_user db).1
            (get_or_create_linebot_user db).2 rec0).1,
          ?_, by rw [existingPath_fst_urls, get_or_create_urls]⟩
  rw [← existingPath_snd (get_or_create_linebot_user db).1
        (get_or_create_linebot_user db).2 rec0, Prod.mk.eta]

/-- Case analysis of any successful `create_short_url`. -/
theorem create_ok_cases (db s1 : Store) (u : String) (cands : Nat → String)
    (fetch : FetchOutcome) (r : ShortenResult)
    (h : create_short_url db u cands fetch = .ok (s1, r)) :
    ∃ v, validate_url u = .ok v ∧
      ((∃ e, findByOriginalUrl db.urls v = some e ∧ s1.urls = db.urls ∧
          r = { shortCode := e.shortCode, originalUrl := e.originalUrl,
                title := e.title, shortUrl := "https://s8l.xyz/" ++ e.shortCode }) ∨
       (∃ nr : UrlRec, findByOriginalUrl db.urls v = none ∧ s1.urls = db.urls ++ [nr] ∧
          nr.originalUrl = v ∧ nr.clickCount = 0 ∧
          nr.title = some (fetch_page_title fetch) ∧
          findByShortCode db.urls nr.shortCode = none ∧
          r = { shortCode := nr.shortCode, originalUrl := nr.originalUrl, title := nr.title,
                shortUrl := "https://s8l.xyz/" ++ nr.shortCode })) := by
  unfold create_short_url at h
  rcases hval : validate_url u with e | v
  · rw [hval] at h; cases h
  · simp only [hval, get_or_create_urls db] at h
    refine ⟨v, rfl, ?_⟩
    rcases hfound : findByOriginalUrl db.urls v with _ | e
    · simp only [hfound] at h
      obtain ⟨nr, h1, h2, h3, h4, h5, hmiss2, h6⟩ :=
        afterDedupMiss_ok_shape (get_or_create_linebot_user db).1 s1
          (get_or_create_linebot_user db).2 v cands fetch r h
      rw [get_or_create_urls db] at h1 h5
      exact Or.inr ⟨nr, rfl, h1, h2, h3, h4, h5, h6⟩
    · simp only [hfound] at h
      have hpair : existingPath (get_or_create_linebot_user db).1
          (get_or_create_linebot_user db).2 e = (s1, r) := Except.ok.inj h
      have hs : (existingPath (get_or_create_linebot_user db).1
          (get_or_create_linebot_user db).2 e).1 = s1 := congrArg Prod.fst hpair
      have hr : (existingPath (get_or_create_linebot_user db).1
          (get_or_create_linebot_user db).2 e).2 = r := congrArg Prod.snd hpair
      refine Or.inl ⟨e, rfl, ?_, ?_⟩
      · rw [← hs, existingPath_fst_urls, get_or_create_urls]
      · rw [← hr, existingPath_snd]

/- ### Lemmas: lookups on extended tables -/

theorem findByOriginalUrl_append_singleton (l : List UrlRec) (nr : UrlRec) (u : String)
    (hl : findByOriginalUrl l u = none) (hnr : nr.originalUrl = u) :
    findByOriginalUrl (l ++ [nr]) u = some nr := by
  unfold findByOriginalUrl at hl ⊢
  rw [List.find?_append, hl]
  simp [List.find?, hnr]

theorem findByShortCode_append_singleton (l : List UrlRec) (nr : UrlRec) (c : String)
    (hl : findByShortCode l c = none) (hnr : nr.shortCode = c) :
    findByShortCode (l ++ [nr]) c = some nr := by
  unfold findByShortCode at hl ⊢
  rw [List.find?_append, hl]
  simp [List.find?, hnr]

theorem findByOriginalUrl_some_spec (l : List UrlRec) (u : String) (e : UrlRec)
    (h : findByOriginalUrl l u = some e) : e.originalUrl = u ∧ e ∈ l :=
  ⟨by simpa using List.find?_some h, List.mem_of_find?_eq_some h⟩

/-- With pairwise-distinct short codes, looking a member's code up returns
that member. -/
theorem findByShortCode_mem_nodup (l : List UrlRec) (e : UrlRec)
    (hnodup : (l.map UrlRec.shortCode).Nodup) (he : e ∈ l) :
    findByShortCode l e.shortCode = some e := by
  rcases hx : findByShortCode l e.shortCode with _ | x
  · exfalso
    have hsome : (findByShortCode l e.shortCode).isSome := by
      unfold findByShortCode
      rw [List.find?_isSome]
      exact ⟨e, he, by simp⟩
    rw [hx] at hsome
    simp at hsome
  · have hxmem : x ∈ l := List.mem_of_find?_eq_some hx
    have hxcode : x.shortCode = e.shortCode := by
      have := List.find?_some hx
      simpa using this
    have hxe : x = e := List.inj_on_of_nodup_map hnodup hxmem he hxcode
    rw [hxe]

/- ### Lemmas: create-level wrappers -/

/-- A successful generation on a dedup miss makes `create_short_url` succeed
with the generated code. -/
theorem create_ok_of_gen (db : Store) (u v : String) (cands : Nat → String)
    (fetch : FetchOutcome) (code : String)
    (hv : validate_url u = .ok v)
    (hmiss : findByOriginalUrl db.urls v = none)
    (hgen : genLoop db.urls cands 0 = .ok code) :
    ∃ s1, create_short_url db u cands fetch =
      .ok (s1, { shortCode := code, originalUrl := v,
                 title := some (fetch_page_title fetch),
                 shortUrl := "https://s8l.xyz/" ++ code }) := by
  unfold create_short_url
  simp only [hv, get_or_create_urls db, hmiss]
  obtain ⟨s1, hs⟩ := afterDedupMiss_ok_of_gen (get_or_create_linebot_user db).1
      (get_or_create_linebot_user db).2 v cands fetch code
      (by rw [get_or_create_urls db]; exact hmiss)
      (by rw [get_or_create_urls db]; exact hgen)
  exact ⟨s1, hs⟩

/-- When the destination is new and every candidate collides, the whole call
fails with the exhaustion error. -/
theorem create_exhausted (db : Store) (u v : String) (cands : Nat → String)
    (fetch : FetchOutcome)
    (hv : validate_url u = .ok v)
    (hmiss : findByOriginalUrl db.urls v = none)
    (hall : ∀ i, i < max_attempts → (findByShortCode db.urls (cands i)).isSome) :
    create_short_url db u cands fetch = .error .codeSpaceExhausted := by
  unfold create_short_url
  simp only [hv, get_or_create_urls db, hmiss]
  unfold afterDedupMiss
  rw [get_or_create_urls db]
  simp only [genLoop_all_collide_aux db.urls cands (max_attempts - 0) 0 rfl
    (fun i _ hi => hall i hi)]

/- ### C3: sequential idempotence of Shorten -/

/-- C3: Shorten called twice sequentially with the same raw input returns the
same short code both times, and the second call adds no url record. -/
theorem C3_shorten_idempotent (db s1 : Store) (u : String) (c1 : Nat → String)
    (f1 : FetchOutcome) (r1 : ShortenResult)
    (h : create_short_url db u c1 f1 = .ok (s1, r1))
    (c2 : Nat → String) (f2 : FetchOutcome) :
    ∃ s2 r2, create_short_url s1 u c2 f2 = .ok (s2, r2) ∧
      r2.shortCode = r1.shortCode ∧ s2.urls = s1.urls := by
  obtain ⟨v, hv, hcases⟩ := create_ok_cases db s1 u c1 f1 r1 h
  rcases hcases with ⟨e, hfound, hurls, hr⟩ | ⟨nr, hmiss, hurls, hnrv, _, _, _, hr⟩
  · have hfound1 : findByOriginalUrl s1.urls v = some e := by rw [hurls]; exact hfound
    obtain ⟨s2, hcall, hs2⟩ := create_on_hit s1 u v c2 f2 e hv hfound1
    refine ⟨s2, _, hcall, ?_, hs2⟩
    rw [hr]
  · have hfound1 : findByOriginalUrl s1.urls v = some nr := by
      rw [hurls]
      exact findByOriginalUrl_append_singleton db.urls nr v hmiss hnrv
    obtain ⟨s2, hcall, hs2⟩ := create_on_hit s1 u v c2 f2 nr hv hfound1
    refine ⟨s2, _, hcall, ?_, hs2⟩
    rw [hr]

/-- C3 witness: re-shortening a concrete url returns the stored code and
leaves the url table unchanged. -/
theorem C3_witness :
    ∃ s2 r2, create_short_url store1 ("https://example.com") candsA .networkError =
        .ok (s2, r2) ∧
      r2.shortCode = res1.shortCode ∧ s2.urls = store1.urls :=
  C3_shorten_idempotent emptyStore store1 ("https://example.com") candsA .timeout res1 rfl
    candsA .networkError

/- ### C4: the round trip -/

/-- C4 counterexample: `example.com` is accepted by Shorten, yet resolving
the returned code yields the normalized `https://example.com`, not the
input — so `Resolve(Shorten(u).short_code) == u` fails for this valid `u`. -/
theorem C4_counterexample :
    create_short_url emptyStore ("example.com") candsA .timeout = .ok (store1, res1) ∧
    (get_original_url store1 res1.shortCode).2 = some ("https://example.com") ∧
    ("https://example.com" : String) ≠ ("example.com" : String) :=
  ⟨rfl, rfl, by decide⟩

/-- C4 (amended): resolving the code returned by a successful Shorten yields
the canonical form `validate_url u` of the input (which equals `u` exactly
when `u` is already canonical), provided the store's short codes are
pairwise distinct. -/
theorem C4_round_trip_canonical (db s1 : Store) (u v : String) (cands : Nat → String)
    (fetch : FetchOutcome) (r : ShortenResult)
    (hnodup : (db.urls.map UrlRec.shortCode).Nodup)
    (hv : validate_url u = .ok v)
    (h : create_short_url db u cands fetch = .ok (s1, r)) :
    (get_original_url s1 r.shortCode).2 = some v := by
  obtain ⟨v2, hv2, hcases⟩ := create_ok_cases db s1 u cands fetch r h
  have hvv : v2 = v := by
    rw [hv] at hv2
    exact (Except.ok.inj hv2).symm
  subst hvv
  rcases hcases with ⟨e, hfound, hurls, hr⟩ | ⟨nr, hmiss, hurls, hnrv, _, _, hfresh, hr⟩
  · obtain ⟨hev, hemem⟩ := findByOriginalUrl_some_spec db.urls v2 e hfound
    have hrc : r.shortCode = e.shortCode := by rw [hr]
    have hfind1 : findByShortCode s1.urls r.shortCode = some e := by
      rw [hurls, hrc]
      exact findByShortCode_mem_nodup db.urls e hnodup hemem
    unfold get_original_url
    simp only [hfind1, hev]
  · have hrc : r.shortCode = nr.shortCode := by rw [hr]
    have hfind1 : findByShortCode s1.urls r.shortCode = some nr := by
      rw [hurls, hrc]
      exact findByShortCode_append_singleton db.urls nr nr.shortCode hfresh rfl
    unfold get_original_url
    simp only [hfind1, hnrv]

/-- C4 witness: the amended round trip at a concrete non-canonical input. -/
theorem C4_witness : (get_original_url store1 res1.shortCode).2 = some ("https://example.com") :=
  C4_round_trip_canonical emptyStore store1 ("example.com") ("https://example.com") candsA
    .timeout res1 (by simp [emptyStore]) rfl rfl

/- ### C5: bounded code generation -/

/-- C5: on a dedup miss, Shorten consults only the first 10 candidate codes
(replacing later candidates cannot change the outcome); if all 10 collide it
fails with the exhaustion error; and the first non-colliding candidate is
the code actually used. -/
theorem C5_generation_bounded (db : Store) (u v : String) (cands cands2 : Nat → String)
    (fetch : FetchOutcome)
    (hv : validate_url u = .ok v)
    (hmiss : findByOriginalUrl db.urls v = none)
    (hagree : ∀ i, i < max_attempts → cands i = cands2 i) :
    create_short_url db u cands fetch = create_short_url db u cands2 fetch ∧
    ((∀ i, i < max_attempts → (findByShortCode db.urls (cands i)).isSome) →
      create_short_url db u cands fetch = .error .codeSpaceExhausted) ∧
    (∀ j, j < max_attempts →
      (∀ i, i < j → (findByShortCode db.urls (cands i)).isSome) →
      findByShortCode db.urls (cands j) = none →
      ∃ s1, create_short_url db u cands fetch =
        .ok (s1, { shortCode := cands j, originalUrl := v,
                   title := some (fetch_page_title fetch),
                   shortUrl := "https://s8l.xyz/" ++ cands j })) := by
  refine ⟨?_, ?_, ?_⟩
  · unfold create_short_url
    simp only [hv, get_or_create_urls db, hmiss]
    unfold afterDedupMiss
    rw [genLoop_congr_aux ((get_or_create_linebot_user db).1.urls) cands cands2 hagree
      (max_attempts - 0) 0 rfl]
  · intro hall
    exact create_exhausted db u v cands fetch hv hmiss hall
  · intro j hj hcoll hfresh
    exact create_ok_of_gen db u v cands fetch (cands j) hv hmiss
      (genLoop_first_fresh_aux db.urls cands j hj hfresh (max_attempts - 0) 0 rfl
        (Nat.zero_le j) (fun i h1 h2 => hcoll i h2))

/-- C5 witness: on an empty store the very first candidate is fresh and is
the code used. -/
theorem C5_witness :
    ∃ s1, create_short_url emptyStore ("https://example.com") candsA .timeout =
      .ok (s1, { shortCode := candsA 0, originalUrl := "https://example.com",
                 title := some (fetch_page_title .timeout),
                 shortUrl := "https://s8l.xyz/" ++ candsA 0 }) :=
  (C5_generation_bounded emptyStore ("https://example.com") ("https://example.com")
      candsA candsA .timeout rfl rfl (fun i _ => rfl)).2.2 0 (by decide)
    (fun i hi => absurd hi (Nat.not_lt_zero i)) rfl

/- ### C6: the metadata fetch is best-effort -/

/-- C6: every failure mode of the title fetch — non-2xx status (the code in
fact sentinels everything but 200), timeout, parser error, network error —
yields the fixed sentinel, and Shorten still succeeds, storing the sentinel
as the title. -/
theorem C6_fetch_title_never_fails (st : Nat) (body : HtmlContent) (db : Store)
    (u v : String) (cands : Nat → String)
    (hst : st ≠ 200)
    (hv : validate_url u = .ok v)
    (hmiss : findByOriginalUrl db.urls v = none)
    (hfresh : findByShortCode db.urls (cands 0) = none) :
    fetch_page_title .timeout = sentinel_title ∧
    fetch_page_title .networkError = sentinel_title ∧
    fetch_page_title (.response st body) = sentinel_title ∧
    fetch_page_title (.response 200 .parseError) = sentinel_title ∧
    ∃ s1, create_short_url db u cands .timeout =
      .ok (s1, { shortCode := cands 0, originalUrl := v, title := some sentinel_title,
                 shortUrl := "https://s8l.xyz/" ++ cands 0 }) := by
  refine ⟨rfl, rfl, ?_, rfl, ?_⟩
  · simp [fetch_page_title, hst]
  · exact create_ok_of_gen db u v cands .timeout (cands 0) hv hmiss
      (genLoop_first_fresh_aux db.urls cands 0 (by decide) hfresh (max_attempts - 0) 0 rfl
        (Nat.le_refl 0) (fun i h1 h2 => absurd h2 (Nat.not_lt_zero i)))

/-- C6 witness: a concrete Shorten whose fetch timed out still succeeds with
the sentinel title. -/
theorem C6_witness :
    ∃ s1, create_short_url emptyStore ("example.org") candsA .timeout =
      .ok (s1, { shortCode := candsA 0, originalUrl := "https://example.org",
                 title := some sentinel_title,
                 shortUrl := "https://s8l.xyz/" ++ candsA 0 }) :=
  (C6_fetch_title_never_fails 404 (.parsed none) emptyStore ("example.org")
      ("https://example.org") candsA (by decide) rfl rfl rfl).2.2.2.2

/- ### C7: resolving an unknown code -/

/-- C7: resolving a code with no record returns the not-found signal and the
whole store — every table, every counter — unchanged. -/
theorem C7_resolve_missing (db : Store) (code : String)
    (h : findByShortCode db.urls code = none) :
    get_original_url db code = (db, none) := by
  unfold get_original_url
  simp only [h]

/-- C7 witness: a miss on a populated concrete store. -/
theorem C7_witness : get_original_url store1 ("doesnotexist") = (store1, none) :=
  C7_resolve_missing store1 ("doesnotexist") rfl

/- ### C9: the click counter -/

/-- C9: a Link's click counter starts at 0 on creation (and `Nat`-valued, so
never negative); Shorten never changes any existing counter; Resolve on a
miss changes nothing, and on a hit rewrites the table so that exactly the
resolved record gains 1 while every record's counter is ≥ its old value. -/
theorem C9_click_count (db s1 : Store) (u : String) (cands : Nat → String)
    (fetch : FetchOutcome) (r : ShortenResult) (code : String)
    (hc : create_short_url db u cands fetch = .ok (s1, r)) :
    (s1.urls = db.urls ∨ ∃ nr : UrlRec, nr.clickCount = 0 ∧ s1.urls = db.urls ++ [nr]) ∧
    (findByShortCode db.urls code = none → get_original_url db code = (db, none)) ∧
    (∀ x, findByShortCode db.urls code = some x →
      (get_original_url db code).1.urls =
        db.urls.map (fun y =>
          if y.id = x.id then { y with clickCount := y.clickCount + 1 } else y) ∧
      ∀ i (h1 : i < db.urls.length)
          (h2 : i < (db.urls.map (fun y =>
            if y.id = x.id then { y with clickCount := y.clickCount + 1 } else y)).length),
        (db.urls.get ⟨i, h1⟩).clickCount ≤
          ((db.urls.map (fun y =>
            if y.id = x.id then { y with clickCount := y.clickCount + 1 } else y)).get
              ⟨i, h2⟩).clickCount) := by
  refine ⟨?_, ?_, ?_⟩
  · obtain ⟨v, hv, hcases⟩ := create_ok_cases db s1 u cands fetch r hc
    rcases hcases with ⟨e, _, hurls, _⟩ | ⟨nr, _, hurls, _, hzero, _, _, _⟩
    · exact Or.inl hurls
    · exact Or.inr ⟨nr, hzero, hurls⟩
  · intro h
    unfold get_original_url
    simp only [h]
  · intro x hx
    constructor
    · unfold get_original_url
      simp only [hx]
    · intro i h1 h2
      rw [List.get_map]
      by_cases hid : (db.urls.get ⟨i, h1⟩).id = x.id
      · simp only [hid, if_true]
        exact Nat.le_succ _
      · simp only [hid, if_false]
        exact Nat.le_refl _

/-- C9 witness: the concrete created record starts with a zero counter. -/
theorem C9_witness :
    store1.urls = emptyStore.urls ∨
    ∃ nr : UrlRec, nr.clickCount = 0 ∧ store1.urls = emptyStore.urls ++ [nr] :=
  (C9_click_count emptyStore store1 ("https://example.com") candsA .timeout res1
    ("abc123") rfl).1

/- ### C1: the self-referential check is dead code -/

/-- C1: the own-domain check the source writes (`selfRefAttempt`) does fire
on `https://s8l.xyz/abc123` — but its `ValueError` is raised inside the very
`try` whose handler is `except Exception: pass`, so `create_short_url`
swallows it and happily creates a Link for the service's own domain. -/
theorem C1_self_ref_check_swallowed :
    selfRefAttempt ("https://s8l.xyz/abc123") = .error .selfReferential ∧
    ∃ s1 r, create_short_url emptyStore ("https://s8l.xyz/abc123") candsA .timeout =
        .ok (s1, r) ∧ s1.urls.length = 1 :=
  ⟨rfl, _, _, rfl, rfl⟩

/- ### C2: concurrent Shorten callers racing on one destination -/

/-- Faithfulness of the two-step caller model: running a caller's two steps
back to back, with the attribution user already present, is exactly one
uninterleaved `create_short_url` call — the final phase carries the call's
result and the store is the call's store. -/
theorem stepCaller_twice_eq_create (db : Store) (raw v : String) (user : UserRec)
    (cands : Nat → String) (fetch : FetchOutcome)
    (hval : validate_url raw = .ok v)
    (huser : findUserByEmail db.users linebot_email = some user) :
    (stepCaller (stepCaller db ⟨v, user, cands, fetch, .atDedup⟩).1
        (stepCaller db ⟨v, user, cands, fetch, .atDedup⟩).2).2.phase =
      .finished ((create_short_url db raw cands fetch).map Prod.snd) ∧
    (stepCaller (stepCaller db ⟨v, user, cands, fetch, .atDedup⟩).1
        (stepCaller db ⟨v, user, cands, fetch, .atDedup⟩).2).1 =
      (match create_short_url db raw cands fetch with
       | .ok (s1, _) => s1
       | .error _ => db) := by
  have hens : get_or_create_linebot_user db = (db, user) := by
    unfold get_or_create_linebot_user
    rw [huser]
  unfold create_short_url
  simp only [hval, hens]
  show ((stepCaller db ⟨v, user, cands, fetch,
      .atRest (findByOriginalUrl db.urls v)⟩).2.phase = _) ∧
    ((stepCaller db ⟨v, user, cands, fetch,
      .atRest (findByOriginalUrl db.urls v)⟩).1 = _)
  rcases hf : findByOriginalUrl db.urls v with _ | e
  · unfold stepCaller
    rcases ha : afterDedupMiss db user v cands fetch with e2 | p
    · simp only [ha]
      exact ⟨rfl, trivial⟩
    · rcases p with ⟨s2, r2⟩
      simp only [ha]
      exact ⟨rfl, trivial⟩
  · exact ⟨rfl, rfl⟩

/-- C2 counterexample: in the interleaving A-dedup, B-dedup, A-rest, B-rest
of two Shorten callers for the same destination, caller A wins, while caller
B's insert raises the store's uniqueness `Conflict`, which surfaces as B's
final outcome — B does not observe the winner's record, refuting both "every
caller observes the winner's record" and "Conflict is never surfaced". -/
theorem C2_conflict_surfaces :
    (runTwo raceStore callerA callerB [true, false, true, false]).2.2.phase =
      .finished (.error .conflict) ∧
    (runTwo raceStore callerA callerB [true, false, true, false]).2.1.phase =
      .finished (.ok { shortCode := "AAAAAA", originalUrl := "https://example.org",
                       title := some sentinel_title,
                       shortUrl := "https://s8l.xyz/AAAAAA" }) ∧
    (runTwo raceStore callerA callerB [true, false, true, false]).1.urls.length = 1 :=
  ⟨rfl, rfl, rfl⟩

/-- C2 (amended): in every interleaving of the two callers' dedup-lookup and
insert steps, at most one Link is durably created (here: exactly one), and
each caller either observes the winner's record or receives the store-level
`Conflict` error, which the code leaves unhandled. -/
theorem C2_amended_race (sched : List Bool) (hs : sched ∈ validSchedules) :
    ∃ w : UrlRec,
      (runTwo raceStore callerA callerB sched).1.urls = [w] ∧
      ∀ ph ∈ [(runTwo raceStore callerA callerB sched).2.1.phase,
              (runTwo raceStore callerA callerB sched).2.2.phase],
        ph = .finished (.ok { shortCode := w.shortCode, originalUrl := w.originalUrl,
                              title := w.title,
                              shortUrl := "https://s8l.xyz/" ++ w.shortCode }) ∨
        ph = .finished (.error .conflict) := by
  fin_cases hs <;>
    exact ⟨_, rfl, by
      intro ph hph
      fin_cases hph
      · first
        | exact Or.inl rfl
        | exact Or.inr rfl
      · first
        | exact Or.inl rfl
        | exact Or.inr rfl⟩

/-- C2 witness: the amended statement at the concrete interleaving of the
counterexample. -/
theorem C2_amended_witness :
    ∃ w : UrlRec,
      (runTwo raceStore callerA callerB [true, false, true, false]).1.urls = [w] ∧
      ∀ ph ∈ [(runTwo raceStore callerA callerB [true, false, true, false]).2.1.phase,
              (runTwo raceStore callerA callerB [true, false, true, false]).2.2.phase],
        ph = .finished (.ok { shortCode := w.shortCode, originalUrl := w.originalUrl,
                              title := w.title,
                              shortUrl := "https://s8l.xyz/" ++ w.shortCode }) ∨
        ph = .finished (.error .conflict) :=
  C2_amended_race [true, false, true, false] (by decide)

end S8l
